import Mathlib

/-!
# Verification of the `FIAStorage` tiered cache

Shallow embedding of the tiered storage resolver `FIAStorage`
(`backend/src/pyfia_api/services/storage.py` as given in the storage
strategy document): a local disk cache of DuckDB files, an optional
S3-compatible remote tier, and the FIA DataMart origin.

The local cache directory is modelled as a list of `FileEntry` records in
registration (creation) order; `Path.glob` enumeration is modelled as that
registration order.  File access times (`st_atime`, used by the LRU
eviction) are modelled by a monotone logical clock `FS.clock`.  Network
effects are modelled by call counters (`s3Calls`, `originCalls`,
`uploads`) plus an environment `Env` giving the outcome of each remote
call for a key.
-/

namespace FIAStorage

/-- Outcome of one S3 `download_file` attempt for a key: object streamed
successfully (with its size), `NoSuchKey`, or any other exception
(timeout, connection refused, auth failure, ...). -/
inductive S3Result where
  | found (size : Nat)
  | noSuchKey
  | transportError
deriving DecidableEq, Repr

/-- One file in the managed local cache directory (`*.duckdb`). -/
structure FileEntry where
  name : String
  size : Nat
  atime : Nat
deriving DecidableEq, Repr

/-- Observable state: the managed local directory (in registration order),
the logical clock backing file timestamps, and network call counters. -/
structure FS where
  files : List FileEntry
  clock : Nat
  s3Calls : Nat
  originCalls : Nat
  uploads : Nat
deriving DecidableEq, Repr

/-- Constructor configuration of `FIAStorage`: whether `s3_bucket` is set
(the S3 client exists iff it is), the byte quota `max_local_bytes`, and
the local cache directory. -/
structure Config where
  s3Bucket : Bool
  maxLocalBytes : Nat
  localDir : String
deriving DecidableEq, Repr

/-- External world: outcome of an S3 download for a key, and outcome of a
`pyfia.download` origin fetch for a key (`some size` on success, `none`
when it raises). -/
structure Env where
  s3 : String → S3Result
  origin : String → Option Nat

/-- Python `state.upper()`: uppercase each character (same mapping as
`String.toUpper`, written over the character list so that it reduces). -/
def toUpperStr (s : String) : String := String.mk (s.data.map Char.toUpper)

/-- Python `f"{state}.duckdb"` -/
def dbName (key : String) : String := key ++ ".duckdb"

/-- `self.local_dir / f"{state}.duckdb"` -/
def dbPath (cfg : Config) (key : String) : String :=
  cfg.localDir ++ "/" ++ dbName key

/-- `local_path.exists()` over the managed directory. -/
def fileExists (files : List FileEntry) (name : String) : Bool :=
  files.any (fun f => f.name == name)

/-- `sum(f.stat().st_size for f in files)` -/
def sumSizes (files : List FileEntry) : Nat :=
  (files.map FileEntry.size).sum

/-- `_touch`: `path.touch()` — update the file's timestamp to now, for
LRU tracking.  Mutates nothing but that one file's timestamp. -/
def touch (fs : FS) (name : String) : FS :=
  { fs with
    files := fs.files.map (fun f =>
      if f.name == name then { f with atime := fs.clock } else f)
    clock := fs.clock + 1 }

/-- Materialise a fully written file at `name` (rename onto the final
path: replaces any previous directory entry of that name). -/
def writeFile (fs : FS) (name : String) (size : Nat) : FS :=
  { fs with
    files := fs.files.filter (fun f => f.name != name) ++
      [⟨name, size, fs.clock⟩]
    clock := fs.clock + 1 }

/-- Stable insertion into a list sorted by ascending `atime`; an equal
timestamp keeps the earlier element first, like Python's stable `sort`. -/
def insertA (e : FileEntry) : List FileEntry → List FileEntry
  | [] => [e]
  | f :: fs => if e.atime ≤ f.atime then e :: f :: fs else f :: insertA e fs

/-- `files.sort(key=lambda f: f.stat().st_atime)` — stable sort, oldest
access time first. -/
def sortByAtime : List FileEntry → List FileEntry
  | [] => []
  | f :: fs => insertA f (sortByAtime fs)

/-- The eviction loop of `_enforce_cache_limit`:
`while total_size > max_local_bytes and files:` pop the oldest file,
unlink it, subtract its size.  Returns the names unlinked, in order. -/
def evictLoop (maxBytes : Nat) : Nat → List FileEntry → List String
  | _, [] => []
  | total, f :: rest =>
    if total ≤ maxBytes then []
    else f.name :: evictLoop maxBytes (total - f.size) rest

/-- `_enforce_cache_limit`: remove oldest files if over the cache limit. -/
def enforceCacheLimit (maxBytes : Nat) (fs : FS) : FS :=
  let total := sumSizes fs.files
  if total ≤ maxBytes then fs
  else
    let evicted := evictLoop maxBytes total (sortByAtime fs.files)
    { fs with files := fs.files.filter (fun f => !(evicted.contains f.name)) }

/-- `_download_from_s3`: returns `False` immediately when no S3 client is
configured; otherwise attempts the download and returns `True` only on
success.  Both `NoSuchKey` and any other exception return `False` (the
latter after a logged warning).  boto3's `download_file` transfers to a
temporary file and renames it over the destination on completion, so a
failed attempt leaves the destination absent — modelled here as: the
directory changes only in the `found` case. -/
def downloadFromS3 (cfg : Config) (env : Env) (key : String) (fs : FS) :
    Bool × FS :=
  if cfg.s3Bucket = false then (false, fs)
  else
    let fs1 : FS := { fs with s3Calls := fs.s3Calls + 1 }
    match env.s3 key with
    | .found size => (true, writeFile fs1 (dbName key) size)
    | .noSuchKey => (false, fs1)
    | .transportError => (false, fs1)

/-- `_upload_to_s3`: best-effort upload; any failure is logged and
swallowed, and the caller ignores the returned flag, so only the network
attempt is observable.  Never mutates the local directory. -/
def uploadToS3 (fs : FS) : FS :=
  { fs with uploads := fs.uploads + 1 }

/-- `_download_from_fia`: `pyfia.download` writes into a private `temp`
directory outside the managed cache directory and the result is then
`rename`d onto `local_path`; if the download raises, the exception
propagates and the managed directory is unchanged. -/
def downloadFromFia (env : Env) (key : String) (fs : FS) : Bool × FS :=
  let fs1 : FS := { fs with originCalls := fs.originCalls + 1 }
  match env.origin key with
  | some size => (true, writeFile fs1 (dbName key) size)
  | none => (false, fs1)

/-- `get_db_path`: get the path to a state's DuckDB file, downloading if
necessary.  Tier 1 local cache, tier 2 S3, tier 3 FIA DataMart.  Returns
`none` when the origin fetch raises (the exception propagates). -/
def get_db_path (cfg : Config) (env : Env) (state : String) (fs : FS) :
    Option String × FS :=
  let key := toUpperStr state
  let name := dbName key
  if fileExists fs.files name then
    (some (dbPath cfg key), touch fs name)
  else
    let s3r := if cfg.s3Bucket then downloadFromS3 cfg env key fs
               else (false, fs)
    if s3r.1 then
      (some (dbPath cfg key), enforceCacheLimit cfg.maxLocalBytes s3r.2)
    else
      let og := downloadFromFia env key s3r.2
      if og.1 then
        let fs3 := enforceCacheLimit cfg.maxLocalBytes og.2
        let fs4 := if cfg.s3Bucket then uploadToS3 fs3 else fs3
        (some (dbPath cfg key), fs4)
      else
        (none, og.2)

/-- Well-formed cache directory: file names are distinct (a directory
holds one entry per name) and every timestamp is in the past. -/
def Wf (fs : FS) : Prop :=
  (fs.files.map FileEntry.name).Nodup ∧ ∀ f ∈ fs.files, f.atime < fs.clock

/-! ## Supporting lemmas -/

theorem sumSizes_nil : sumSizes [] = 0 := rfl

theorem sumSizes_cons (f : FileEntry) (l : List FileEntry) :
    sumSizes (f :: l) = f.size + sumSizes l := by
  simp [sumSizes]

theorem sumSizes_append (l₁ l₂ : List FileEntry) :
    sumSizes (l₁ ++ l₂) = sumSizes l₁ + sumSizes l₂ := by
  simp [sumSizes]

theorem sumSizes_perm {l₁ l₂ : List FileEntry} (h : l₁.Perm l₂) :
    sumSizes l₁ = sumSizes l₂ :=
  (h.map FileEntry.size).sum_eq

theorem insertA_perm (e : FileEntry) (l : List FileEntry) :
    (insertA e l).Perm (e :: l) := by
  induction l with
  | nil => simp [insertA]
  | cons f fs ih =>
    simp only [insertA]
    split
    · exact List.Perm.refl _
    · exact (List.Perm.cons f ih).trans (List.Perm.swap e f fs)

theorem sortByAtime_perm (l : List FileEntry) : (sortByAtime l).Perm l := by
  induction l with
  | nil => exact List.Perm.refl _
  | cons f fs ih =>
    exact (insertA_perm f (sortByAtime fs)).trans (List.Perm.cons f ih)

theorem evictLoop_eq_nil {maxBytes total : Nat} (l : List FileEntry)
    (h : total ≤ maxBytes) : evictLoop maxBytes total l = [] := by
  cases l with
  | nil => rfl
  | cons f rest => simp [evictLoop, h]

theorem sumSizes_filter_mono {p q : FileEntry → Bool} (l : List FileEntry)
    (h : ∀ f ∈ l, p f = true → q f = true) :
    sumSizes (l.filter p) ≤ sumSizes (l.filter q) := by
  induction l with
  | nil => exact Nat.le_refl _
  | cons f rest ih =>
    have ih' := ih (fun g hg => h g (List.mem_cons_of_mem f hg))
    by_cases hp : p f = true
    · have hq := h f (List.mem_cons_self f rest) hp
      simp only [List.filter_cons, hp, hq, if_true, sumSizes_cons]
      exact Nat.add_le_add_left ih' _
    · have hp' : p f = false := Bool.eq_false_iff.mpr hp
      simp only [List.filter_cons, hp']
      cases hq : q f with
      | false => simpa using ih'
      | true =>
        simp only [if_true, sumSizes_cons]
        exact Nat.le_trans ih' (Nat.le_add_left _ _)

/-- Core bound of the eviction loop: after removing the files whose names
the loop selected, the surviving files of the scanned list total at most
the cache limit. -/
theorem evictLoop_bound (maxBytes : Nat) (l : List FileEntry) :
    sumSizes (l.filter
      (fun f => !((evictLoop maxBytes (sumSizes l) l).contains f.name)))
      ≤ maxBytes := by
  induction l with
  | nil => exact Nat.zero_le _
  | cons f rest ih =>
    by_cases hle : sumSizes (f :: rest) ≤ maxBytes
    · have hev : evictLoop maxBytes (sumSizes (f :: rest)) (f :: rest) = [] :=
        evictLoop_eq_nil _ hle
      rw [hev]
      simpa using hle
    · have hgt : ¬ sumSizes (f :: rest) ≤ maxBytes := hle
      have hev : evictLoop maxBytes (sumSizes (f :: rest)) (f :: rest) =
          f.name :: evictLoop maxBytes (sumSizes rest) rest := by
        rw [sumSizes_cons] at hgt
        simp only [evictLoop, sumSizes_cons, Nat.add_sub_cancel_left, if_neg hgt]
      rw [hev]
      have hhead : (!((f.name :: evictLoop maxBytes (sumSizes rest) rest).contains
          f.name)) = false := by
        simp [List.contains_cons]
      simp only [List.filter_cons, hhead, if_false]
      calc sumSizes (rest.filter
            (fun g => !((f.name :: evictLoop maxBytes (sumSizes rest) rest).contains
              g.name)))
          ≤ sumSizes (rest.filter
            (fun g => !((evictLoop maxBytes (sumSizes rest) rest).contains
              g.name))) := by
            apply sumSizes_filter_mono
            intro g _ hpg
            simp only [List.contains_cons, Bool.not_eq_true', Bool.or_eq_false_iff]
              at hpg
            simpa using hpg.2
        _ ≤ maxBytes := ih

/-- C3: after any sequence of writes followed by a completed eviction
pass (`_enforce_cache_limit`), the total size of the files in the local
cache directory is at most the configured quota `max_local_bytes`.  (The
code has no pinning, so this holds with no exception at all.) -/
theorem quota_holds_after_eviction_pass (maxBytes : Nat) (fs : FS) :
    sumSizes (enforceCacheLimit maxBytes fs).files ≤ maxBytes := by
  simp only [enforceCacheLimit]
  split
  · next h => simpa using h
  · next h =>
    simp only []
    rw [← sumSizes_perm (sortByAtime_perm fs.files)]
    rw [← sumSizes_perm ((sortByAtime_perm fs.files).filter
      (fun f => !((evictLoop maxBytes (sumSizes (sortByAtime fs.files))
        (sortByAtime fs.files)).contains f.name)))]
    exact evictLoop_bound maxBytes (sortByAtime fs.files)

theorem insertA_last {g e : FileEntry} (l₁ : List FileEntry)
    (h : g.atime ≤ e.atime) :
    ∃ l₂, insertA g (l₁ ++ [e]) = l₂ ++ [e] := by
  induction l₁ with
  | nil =>
    refine ⟨[g], ?_⟩
    simp [insertA, h]
  | cons f l₁ ih =>
    simp only [List.cons_append, insertA]
    split
    · exact ⟨g :: f :: l₁, by simp⟩
    · obtain ⟨l₂, hl₂⟩ := ih
      exact ⟨f :: l₂, by simp [hl₂]⟩

/-- An entry whose timestamp is at least every other timestamp sorts to
the very end of the LRU order. -/
theorem sortByAtime_last {e : FileEntry} (l : List FileEntry)
    (h : ∀ g ∈ l, g.atime ≤ e.atime) :
    ∃ l₁, sortByAtime (l ++ [e]) = l₁ ++ [e] := by
  induction l with
  | nil => exact ⟨[], rfl⟩
  | cons f l ih =>
    obtain ⟨l₁, hl₁⟩ := ih (fun g hg => h g (List.mem_cons_of_mem f hg))
    have hstep : sortByAtime ((f :: l) ++ [e]) =
        insertA f (sortByAtime (l ++ [e])) := rfl
    rw [hstep, hl₁]
    exact insertA_last l₁ (h f (List.mem_cons_self f l))

/-- The eviction loop never selects the final (most recently accessed)
entry when that entry alone fits within the limit. -/
theorem evictLoop_last_not_mem {maxBytes : Nat} {e : FileEntry}
    (l₁ : List FileEntry) (hsize : e.size ≤ maxBytes)
    (hname : ∀ g ∈ l₁, g.name ≠ e.name) :
    e.name ∉ evictLoop maxBytes (sumSizes (l₁ ++ [e])) (l₁ ++ [e]) := by
  induction l₁ with
  | nil =>
    have : sumSizes ([] ++ [e]) ≤ maxBytes := by
      simpa [sumSizes_cons] using hsize
    rw [evictLoop_eq_nil _ this]
    simp
  | cons f l₁ ih =>
    by_cases hle : sumSizes (f :: (l₁ ++ [e])) ≤ maxBytes
    · rw [List.cons_append, evictLoop_eq_nil _ hle]
      simp
    · rw [sumSizes_cons] at hle
      simp only [List.cons_append, evictLoop, sumSizes_cons,
        Nat.add_sub_cancel_left, if_neg hle]
      intro hmem
      rcases List.mem_cons.mp hmem with heq | hmem'
      · exact hname f (List.mem_cons_self f l₁) heq.symm
      · exact ih (fun g hg => hname g (List.mem_cons_of_mem f hg)) hmem'

theorem touch_files_map_name (fs : FS) (n : String) :
    ((touch fs n).files.map FileEntry.name) = fs.files.map FileEntry.name := by
  simp only [touch, List.map_map]
  apply List.map_congr_left
  intro f _
  by_cases h : f.name = n <;> simp [Function.comp, h]

theorem fileExists_iff_mem_names {l : List FileEntry} {n : String} :
    fileExists l n = true ↔ n ∈ l.map FileEntry.name := by
  simp only [fileExists, List.any_eq_true, List.mem_map]
  constructor
  · rintro ⟨f, hf, hbeq⟩
    exact ⟨f, hf, by simpa using (beq_iff_eq.mp hbeq)⟩
  · rintro ⟨f, hf, hn⟩
    exact ⟨f, hf, by simp [hn]⟩

theorem touch_fileExists (fs : FS) (n m : String) :
    fileExists (touch fs n).files m = fileExists fs.files m := by
  by_cases h : fileExists (touch fs n).files m = true
  · have := fileExists_iff_mem_names.mp h
    rw [touch_files_map_name] at this
    exact h.trans (fileExists_iff_mem_names.mpr this).symm
  · have h' : fileExists (touch fs n).files m = false := Bool.eq_false_iff.mpr h
    rw [h']
    by_contra hc
    have : fileExists fs.files m = true := by
      cases hx : fileExists fs.files m with
      | true => rfl
      | false => exact absurd hx.symm hc
    have := fileExists_iff_mem_names.mp this
    rw [← touch_files_map_name fs n] at this
    exact h (fileExists_iff_mem_names.mpr this)

theorem writeFile_files (fs : FS) (n : String) (size : Nat) :
    (writeFile fs n size).files =
      fs.files.filter (fun f => f.name != n) ++ [⟨n, size, fs.clock⟩] := rfl

/-- A freshly written file carries the newest timestamp, so the eviction
pass (which removes oldest-first) deletes it only after deleting every
other file, and not at all when it alone fits within the limit. -/
theorem writeFile_survives (maxBytes : Nat) (fs : FS) (n : String)
    (size : Nat) (hts : ∀ f ∈ fs.files, f.atime ≤ fs.clock)
    (hsize : size ≤ maxBytes) :
    (⟨n, size, fs.clock⟩ : FileEntry) ∈
      (enforceCacheLimit maxBytes (writeFile fs n size)).files := by
  set e : FileEntry := ⟨n, size, fs.clock⟩ with he
  set old : List FileEntry := fs.files.filter (fun f => f.name != n) with hold
  have hfiles : (writeFile fs n size).files = old ++ [e] := rfl
  have hle : ∀ g ∈ old, g.atime ≤ e.atime := by
    intro g hg
    exact hts g (List.mem_of_mem_filter hg)
  obtain ⟨l₁, hl₁⟩ := sortByAtime_last old hle
  have hperm : (l₁ ++ [e]).Perm (old ++ [e]) := by
    rw [← hl₁]; exact sortByAtime_perm (old ++ [e])
  have henotold : e ∉ old := by
    intro hmem
    have := (List.mem_filter.mp hmem).2
    simp [he] at this
  have henotl₁ : e ∉ l₁ := by
    have hcount := hperm.count_eq e
    rw [List.count_append, List.count_append, List.count_singleton_self,
      List.count_eq_zero_of_not_mem henotold] at hcount
    exact List.count_eq_zero.mp (by omega)
  have hname : ∀ g ∈ l₁, g.name ≠ e.name := by
    intro g hg
    have hg' : g ∈ old ++ [e] :=
      hperm.mem_iff.mp (List.mem_append_left [e] hg)
    rcases List.mem_append.mp hg' with hgo | hge
    · have := (List.mem_filter.mp hgo).2
      simpa [he] using this
    · exact absurd (List.mem_singleton.mp hge ▸ hg) henotl₁
  have hnotev : e.name ∉ evictLoop maxBytes (sumSizes (l₁ ++ [e])) (l₁ ++ [e]) :=
    evictLoop_last_not_mem l₁ hsize hname
  simp only [enforceCacheLimit, hfiles]
  split
  · exact List.mem_append_right old (List.mem_singleton_self e)
  · simp only []
    apply List.mem_filter.mpr
    refine ⟨List.mem_append_right old (List.mem_singleton_self e), ?_⟩
    have hsum : sumSizes (old ++ [e]) = sumSizes (l₁ ++ [e]) :=
      (sumSizes_perm hperm).symm
    rw [hl₁, hsum]
    simp only [Bool.not_eq_true']
    rw [← Bool.not_eq_true]
    intro hc
    exact hnotev (List.elem_iff.mp hc)

theorem get_db_path_of_hit (cfg : Config) (env : Env) (state : String)
    (fs : FS) (h : fileExists fs.files (dbName (toUpperStr state)) = true) :
    get_db_path cfg env state fs =
      (some (dbPath cfg (toUpperStr state)), touch fs (dbName (toUpperStr state))) := by
  simp only [get_db_path, h, if_true]

/-! ## Claim theorems -/

/-- C10: when the key's backing file already exists in the local cache
directory, `get_db_path` returns that file's path and mutates nothing
except that one file's access timestamp: every other field of every
entry is unchanged, no file is created or deleted, no S3 or origin or
upload call happens, and no eviction pass runs. -/
theorem local_hit_frame (cfg : Config) (env : Env) (state : String)
    (fs : FS) (h : fileExists fs.files (dbName (toUpperStr state)) = true) :
    (get_db_path cfg env state fs).1 = some (dbPath cfg (toUpperStr state)) ∧
    (get_db_path cfg env state fs).2.files =
      fs.files.map (fun f =>
        if f.name == dbName (toUpperStr state) then { f with atime := fs.clock }
        else f) ∧
    (get_db_path cfg env state fs).2.s3Calls = fs.s3Calls ∧
    (get_db_path cfg env state fs).2.originCalls = fs.originCalls ∧
    (get_db_path cfg env state fs).2.uploads = fs.uploads ∧
    (get_db_path cfg env state fs).2.clock = fs.clock + 1 := by
  rw [get_db_path_of_hit cfg env state fs h]
  exact ⟨rfl, rfl, rfl, rfl, rfl, rfl⟩

/-- Witness for C10 at a one-entry cache. -/
theorem local_hit_frame_witness :
    fileExists (FS.mk [⟨"CA.duckdb", 7, 0⟩] 1 0 0 0).files
      (dbName (toUpperStr "CA")) = true ∧
    (get_db_path ⟨false, 100, "/data/fia"⟩
        ⟨fun _ => S3Result.noSuchKey, fun _ => some 50⟩ "CA"
        (FS.mk [⟨"CA.duckdb", 7, 0⟩] 1 0 0 0)).1 =
      some (dbPath ⟨false, 100, "/data/fia"⟩ (toUpperStr "CA")) :=
  ⟨by decide,
   (local_hit_frame ⟨false, 100, "/data/fia"⟩
     ⟨fun _ => S3Result.noSuchKey, fun _ => some 50⟩ "CA"
     (FS.mk [⟨"CA.duckdb", 7, 0⟩] 1 0 0 0) (by decide)).1⟩

/-- C2: when a resolution fails (the origin fetch raises after every
faster tier missed or failed), the local cache directory is exactly what
it was before the call: no partial or corrupt file is left behind, so a
later `get_db_path` can never serve a partially written file as a hit.
The S3 path is atomic because boto3 `download_file` transfers to a
temporary file and renames on completion; the origin path is atomic
because `pyfia.download` writes outside the cache directory and the
result is `rename`d in. -/
theorem failed_fetch_leaves_local_unchanged (cfg : Config) (env : Env)
    (state : String) (fs : FS)
    (h : (get_db_path cfg env state fs).1 = none) :
    (get_db_path cfg env state fs).2.files = fs.files := by
  cases hex : fileExists fs.files (dbName (toUpperStr state)) <;>
    cases hb : cfg.s3Bucket <;>
    cases hs : env.s3 (toUpperStr state) <;>
    cases ho : env.origin (toUpperStr state) <;>
    simp_all [get_db_path, downloadFromS3, downloadFromFia, uploadToS3]

/-- Witness for C2: origin raises for an unknown key, the cache is
untouched. -/
theorem failed_fetch_leaves_local_unchanged_witness :
    (get_db_path ⟨false, 100, "/data/fia"⟩
        ⟨fun _ => S3Result.noSuchKey, fun _ => none⟩ "CA"
        (FS.mk [⟨"NC.duckdb", 7, 0⟩] 1 0 0 0)).1 = none ∧
    (get_db_path ⟨false, 100, "/data/fia"⟩
        ⟨fun _ => S3Result.noSuchKey, fun _ => none⟩ "CA"
        (FS.mk [⟨"NC.duckdb", 7, 0⟩] 1 0 0 0)).2.files =
      (FS.mk [⟨"NC.duckdb", 7, 0⟩] 1 0 0 0).files :=
  ⟨by decide,
   failed_fetch_leaves_local_unchanged ⟨false, 100, "/data/fia"⟩
     ⟨fun _ => S3Result.noSuchKey, fun _ => none⟩ "CA"
     (FS.mk [⟨"NC.duckdb", 7, 0⟩] 1 0 0 0) (by decide)⟩

theorem enforceCacheLimit_s3Calls (m : Nat) (fs : FS) :
    (enforceCacheLimit m fs).s3Calls = fs.s3Calls := by
  simp only [enforceCacheLimit]; split <;> rfl

theorem enforceCacheLimit_originCalls (m : Nat) (fs : FS) :
    (enforceCacheLimit m fs).originCalls = fs.originCalls := by
  simp only [enforceCacheLimit]; split <;> rfl

theorem enforceCacheLimit_uploads (m : Nat) (fs : FS) :
    (enforceCacheLimit m fs).uploads = fs.uploads := by
  simp only [enforceCacheLimit]; split <;> rfl

/-- C4 (code bug): with an empty cache, quota 100 and an origin artifact
of size 150, `get_db_path` downloads the artifact, then its own eviction
pass unlinks the file just written (the loop keeps evicting while total
size exceeds the limit, and the new file is the only one left), and the
function still returns the now-dangling path: the cache ends empty and
no file exists at the returned path. -/
theorem oversized_put_evicted_dangling_path :
    (get_db_path ⟨false, 100, "/data/fia"⟩
        ⟨fun _ => S3Result.noSuchKey, fun _ => some 150⟩ "CA"
        (FS.mk [] 0 0 0 0)).1 = some "/data/fia/CA.duckdb" ∧
    (get_db_path ⟨false, 100, "/data/fia"⟩
        ⟨fun _ => S3Result.noSuchKey, fun _ => some 150⟩ "CA"
        (FS.mk [] 0 0 0 0)).2.files = [] ∧
    fileExists (get_db_path ⟨false, 100, "/data/fia"⟩
        ⟨fun _ => S3Result.noSuchKey, fun _ => some 150⟩ "CA"
        (FS.mk [] 0 0 0 0)).2.files "CA.duckdb" = false := by decide

/-- C5 counterexample: a zero-byte backing file is served as a local HIT:
the path is returned, no slower tier is consulted, and the stale
zero-byte entry is not purged (it is still registered, merely touched). -/
theorem zero_byte_file_served_as_hit :
    (get_db_path ⟨false, 100, "/data/fia"⟩
        ⟨fun _ => S3Result.noSuchKey, fun _ => some 50⟩ "CA"
        (FS.mk [⟨"CA.duckdb", 0, 0⟩] 1 0 0 0)).1 =
      some "/data/fia/CA.duckdb" ∧
    (get_db_path ⟨false, 100, "/data/fia"⟩
        ⟨fun _ => S3Result.noSuchKey, fun _ => some 50⟩ "CA"
        (FS.mk [⟨"CA.duckdb", 0, 0⟩] 1 0 0 0)).2.s3Calls = 0 ∧
    (get_db_path ⟨false, 100, "/data/fia"⟩
        ⟨fun _ => S3Result.noSuchKey, fun _ => some 50⟩ "CA"
        (FS.mk [⟨"CA.duckdb", 0, 0⟩] 1 0 0 0)).2.originCalls = 0 ∧
    (⟨"CA.duckdb", 0, 1⟩ : FileEntry) ∈
      (get_db_path ⟨false, 100, "/data/fia"⟩
        ⟨fun _ => S3Result.noSuchKey, fun _ => some 50⟩ "CA"
        (FS.mk [⟨"CA.duckdb", 0, 0⟩] 1 0 0 0)).2.files := by decide

/-- C5 (amended): only a *missing* backing file is treated as a miss:
resolution then falls through to a slower tier (here the origin, with no
remote configured) and repopulates the local cache successfully.  A
zero-byte backing file is instead served as a hit (see the
counterexample). -/
theorem missing_file_falls_through (cfg : Config) (env : Env)
    (state : String) (fs : FS) (sz : Nat)
    (hb : cfg.s3Bucket = false)
    (hmiss : fileExists fs.files (dbName (toUpperStr state)) = false)
    (hog : env.origin (toUpperStr state) = some sz)
    (hts : ∀ f ∈ fs.files, f.atime ≤ fs.clock)
    (hsz : sz ≤ cfg.maxLocalBytes) :
    (get_db_path cfg env state fs).1 = some (dbPath cfg (toUpperStr state)) ∧
    (get_db_path cfg env state fs).2.originCalls = fs.originCalls + 1 ∧
    (⟨dbName (toUpperStr state), sz, fs.clock⟩ : FileEntry) ∈
      (get_db_path cfg env state fs).2.files := by
  have hres : get_db_path cfg env state fs =
      (some (dbPath cfg (toUpperStr state)),
        enforceCacheLimit cfg.maxLocalBytes
          (writeFile { fs with originCalls := fs.originCalls + 1 }
            (dbName (toUpperStr state)) sz)) := by
    simp [get_db_path, downloadFromFia, hmiss, hb, hog]
  rw [hres]
  refine ⟨rfl, ?_, ?_⟩
  · rw [enforceCacheLimit_originCalls]; rfl
  · exact writeFile_survives cfg.maxLocalBytes _ _ sz hts hsz

/-- Witness for the amended C5 on an empty cache. -/
theorem missing_file_falls_through_witness :
    fileExists (FS.mk [] 0 0 0 0).files (dbName (toUpperStr "nc")) = false ∧
    (get_db_path ⟨false, 100, "/data/fia"⟩
        ⟨fun _ => S3Result.noSuchKey, fun _ => some 50⟩ "nc"
        (FS.mk [] 0 0 0 0)).1 =
      some (dbPath ⟨false, 100, "/data/fia"⟩ (toUpperStr "nc")) ∧
    (⟨dbName (toUpperStr "nc"), 50, 0⟩ : FileEntry) ∈
      (get_db_path ⟨false, 100, "/data/fia"⟩
        ⟨fun _ => S3Result.noSuchKey, fun _ => some 50⟩ "nc"
        (FS.mk [] 0 0 0 0)).2.files := by
  have h := missing_file_falls_through ⟨false, 100, "/data/fia"⟩
    ⟨fun _ => S3Result.noSuchKey, fun _ => some 50⟩ "nc"
    (FS.mk [] 0 0 0 0) 50 (by decide) (by decide) rfl
    (by intro f hf; cases hf) (by decide)
  exact ⟨by decide, h.1, h.2.2⟩

/-- C6 counterexample: an S3 "object not found" outcome and an S3
transport-error outcome produce literally the same return value
(`False`, with identical state), so the resolver cannot distinguish
them. -/
theorem s3_miss_and_error_collapse :
    downloadFromS3 ⟨true, 100, "/data/fia"⟩
        ⟨fun _ => S3Result.noSuchKey, fun _ => some 40⟩ "CA"
        (FS.mk [] 0 0 0 0) =
      downloadFromS3 ⟨true, 100, "/data/fia"⟩
        ⟨fun _ => S3Result.transportError, fun _ => some 40⟩ "CA"
        (FS.mk [] 0 0 0 0) ∧
    (downloadFromS3 ⟨true, 100, "/data/fia"⟩
        ⟨fun _ => S3Result.noSuchKey, fun _ => some 40⟩ "CA"
        (FS.mk [] 0 0 0 0)).1 = false := by decide

/-- C6 (amended): `_download_from_s3` collapses "object not found" and
transport errors into the same boolean `False` (a transport error
differs only in a logged warning), so the resolver treats a failed
remote tier exactly like a legitimate miss and proceeds to the origin in
both cases. -/
theorem s3_failures_collapse_to_false (cfg : Config) (env₁ env₂ : Env)
    (key : String) (fs : FS)
    (h₁ : env₁.s3 key = S3Result.noSuchKey)
    (h₂ : env₂.s3 key = S3Result.transportError) :
    (downloadFromS3 cfg env₁ key fs).1 = false ∧
    (downloadFromS3 cfg env₂ key fs).1 = false ∧
    downloadFromS3 cfg env₁ key fs = downloadFromS3 cfg env₂ key fs := by
  cases hb : cfg.s3Bucket <;>
    simp [downloadFromS3, hb, h₁, h₂]

/-- Witness for the amended C6. -/
theorem s3_failures_collapse_to_false_witness :
    (downloadFromS3 ⟨true, 5, "/d"⟩
        ⟨fun _ => S3Result.noSuchKey, fun _ => none⟩ "NC"
        (FS.mk [] 0 0 0 0)).1 = false ∧
    downloadFromS3 ⟨true, 5, "/d"⟩
        ⟨fun _ => S3Result.noSuchKey, fun _ => none⟩ "NC"
        (FS.mk [] 0 0 0 0) =
      downloadFromS3 ⟨true, 5, "/d"⟩
        ⟨fun _ => S3Result.transportError, fun _ => none⟩ "NC"
        (FS.mk [] 0 0 0 0) := by
  have h := s3_failures_collapse_to_false ⟨true, 5, "/d"⟩
    ⟨fun _ => S3Result.noSuchKey, fun _ => none⟩
    ⟨fun _ => S3Result.transportError, fun _ => none⟩ "NC"
    (FS.mk [] 0 0 0 0) rfl rfl
  exact ⟨h.1, h.2.2⟩

/-- After any successful `get_db_path`, the returned path is the local
path for the (normalized) key and — provided the artifact sizes offered
by S3 and the origin fit within the quota — the key's backing file is
registered in the local directory, so the next call is a pure local hit. -/
theorem resolve_success_hit (cfg : Config) (env : Env) (state : String)
    (fs : FS) (p : String) (fs1 : FS)
    (hts : ∀ f ∈ fs.files, f.atime ≤ fs.clock)
    (hs3fit : ∀ s, env.s3 (toUpperStr state) = S3Result.found s →
      s ≤ cfg.maxLocalBytes)
    (hogfit : ∀ s, env.origin (toUpperStr state) = some s →
      s ≤ cfg.maxLocalBytes)
    (h : get_db_path cfg env state fs = (some p, fs1)) :
    p = dbPath cfg (toUpperStr state) ∧
    fileExists fs1.files (dbName (toUpperStr state)) = true := by
  cases hex : fileExists fs.files (dbName (toUpperStr state)) with
  | true =>
    rw [get_db_path_of_hit cfg env state fs hex] at h
    injection h with h1 h2
    injection h1 with h1
    refine ⟨h1.symm, ?_⟩
    rw [← h2, touch_fileExists]
    exact hex
  | false =>
    cases hb : cfg.s3Bucket with
    | false =>
      cases ho : env.origin (toUpperStr state) with
      | none => simp [get_db_path, downloadFromFia, hex, hb, ho] at h
      | some s =>
        have hres : get_db_path cfg env state fs =
            (some (dbPath cfg (toUpperStr state)),
              enforceCacheLimit cfg.maxLocalBytes
                (writeFile
                  (FS.mk fs.files fs.clock fs.s3Calls (fs.originCalls + 1)
                    fs.uploads)
                  (dbName (toUpperStr state)) s)) := by
          simp [get_db_path, downloadFromFia, hex, hb, ho]
        rw [hres] at h
        injection h with h1 h2
        injection h1 with h1
        refine ⟨h1.symm, ?_⟩
        rw [← h2]
        exact fileExists_iff_mem_names.mpr
          (List.mem_map.mpr ⟨_,
            writeFile_survives cfg.maxLocalBytes _ _ s hts (hogfit s ho), rfl⟩)
    | true =>
      cases hs : env.s3 (toUpperStr state) with
      | found s =>
        have hres : get_db_path cfg env state fs =
            (some (dbPath cfg (toUpperStr state)),
              enforceCacheLimit cfg.maxLocalBytes
                (writeFile
                  (FS.mk fs.files fs.clock (fs.s3Calls + 1) fs.originCalls
                    fs.uploads)
                  (dbName (toUpperStr state)) s)) := by
          simp [get_db_path, downloadFromS3, hex, hb, hs]
        rw [hres] at h
        injection h with h1 h2
        injection h1 with h1
        refine ⟨h1.symm, ?_⟩
        rw [← h2]
        exact fileExists_iff_mem_names.mpr
          (List.mem_map.mpr ⟨_,
            writeFile_survives cfg.maxLocalBytes _ _ s hts (hs3fit s hs), rfl⟩)
      | noSuchKey =>
        cases ho : env.origin (toUpperStr state) with
        | none =>
          simp [get_db_path, downloadFromS3, downloadFromFia, hex, hb, hs, ho]
            at h
        | some s =>
          have hres : get_db_path cfg env state fs =
              (some (dbPath cfg (toUpperStr state)),
                uploadToS3 (enforceCacheLimit cfg.maxLocalBytes
                  (writeFile
                    (FS.mk fs.files fs.clock (fs.s3Calls + 1)
                      (fs.originCalls + 1) fs.uploads)
                    (dbName (toUpperStr state)) s))) := by
            simp [get_db_path, downloadFromS3, downloadFromFia, uploadToS3,
              hex, hb, hs, ho]
          rw [hres] at h
          injection h with h1 h2
          injection h1 with h1
          refine ⟨h1.symm, ?_⟩
          rw [← h2]
          exact fileExists_iff_mem_names.mpr
            (List.mem_map.mpr ⟨_,
              writeFile_survives cfg.maxLocalBytes _ _ s hts (hogfit s ho),
              rfl⟩)
      | transportError =>
        cases ho : env.origin (toUpperStr state) with
        | none =>
          simp [get_db_path, downloadFromS3, downloadFromFia, hex, hb, hs, ho]
            at h
        | some s =>
          have hres : get_db_path cfg env state fs =
              (some (dbPath cfg (toUpperStr state)),
                uploadToS3 (enforceCacheLimit cfg.maxLocalBytes
                  (writeFile
                    (FS.mk fs.files fs.clock (fs.s3Calls + 1)
                      (fs.originCalls + 1) fs.uploads)
                    (dbName (toUpperStr state)) s))) := by
            simp [get_db_path, downloadFromS3, downloadFromFia, uploadToS3,
              hex, hb, hs, ho]
          rw [hres] at h
          injection h with h1 h2
          injection h1 with h1
          refine ⟨h1.symm, ?_⟩
          rw [← h2]
          exact fileExists_iff_mem_names.mpr
            (List.mem_map.mpr ⟨_,
              writeFile_survives cfg.maxLocalBytes _ _ s hts (hogfit s ho),
              rfl⟩)

/-- C7 (amended): two sequential `resolve` calls return the same path,
and — provided every artifact size the remote tiers can supply for this
key fits within the quota, so the fresh file survives the eviction
pass — the second call performs zero network I/O (no S3 download, no
origin fetch, no upload). -/
theorem resolve_idempotent_within_quota (cfg : Config) (env : Env)
    (state : String) (fs : FS) (p : String) (fs1 : FS)
    (hts : ∀ f ∈ fs.files, f.atime ≤ fs.clock)
    (hs3fit : ∀ s, env.s3 (toUpperStr state) = S3Result.found s →
      s ≤ cfg.maxLocalBytes)
    (hogfit : ∀ s, env.origin (toUpperStr state) = some s →
      s ≤ cfg.maxLocalBytes)
    (h : get_db_path cfg env state fs = (some p, fs1)) :
    (get_db_path cfg env state fs1).1 = some p ∧
    (get_db_path cfg env state fs1).2.s3Calls = fs1.s3Calls ∧
    (get_db_path cfg env state fs1).2.originCalls = fs1.originCalls ∧
    (get_db_path cfg env state fs1).2.uploads = fs1.uploads := by
  obtain ⟨hp, hhit⟩ := resolve_success_hit cfg env state fs p fs1 hts hs3fit
    hogfit h
  rw [get_db_path_of_hit cfg env state fs1 hhit]
  exact ⟨by rw [hp], rfl, rfl, rfl⟩

/-- Witness for the amended C7: a 50-byte artifact under a 100-byte
quota; the second call is a local hit with unchanged call counters. -/
theorem resolve_idempotent_within_quota_witness :
    get_db_path ⟨false, 100, "/data/fia"⟩
        ⟨fun _ => S3Result.noSuchKey, fun _ => some 50⟩ "CA"
        (FS.mk [] 0 0 0 0) =
      (some "/data/fia/CA.duckdb", FS.mk [⟨"CA.duckdb", 50, 0⟩] 1 0 1 0) ∧
    (get_db_path ⟨false, 100, "/data/fia"⟩
        ⟨fun _ => S3Result.noSuchKey, fun _ => some 50⟩ "CA"
        (FS.mk [⟨"CA.duckdb", 50, 0⟩] 1 0 1 0)).1 =
      some "/data/fia/CA.duckdb" ∧
    (get_db_path ⟨false, 100, "/data/fia"⟩
        ⟨fun _ => S3Result.noSuchKey, fun _ => some 50⟩ "CA"
        (FS.mk [⟨"CA.duckdb", 50, 0⟩] 1 0 1 0)).2.originCalls = 1 := by
  have h := resolve_idempotent_within_quota ⟨false, 100, "/data/fia"⟩
    ⟨fun _ => S3Result.noSuchKey, fun _ => some 50⟩ "CA"
    (FS.mk [] 0 0 0 0) "/data/fia/CA.duckdb"
    (FS.mk [⟨"CA.duckdb", 50, 0⟩] 1 0 1 0)
    (by intro f hf; cases hf)
    (fun s hs => S3Result.noConfusion hs)
    (by intro s hs; cases hs; decide)
    (by decide)
  exact ⟨by decide, h.1, h.2.2.1⟩

/-- C7 counterexample: with a 150-byte artifact and a 100-byte quota the
first call's eviction pass deletes the fresh file, so the second call
returns the same path but performs another origin fetch — network I/O
on the second call, contradicting the unconditional claim. -/
theorem second_resolve_refetches_when_oversized :
    (get_db_path ⟨false, 100, "/data/fia"⟩
        ⟨fun _ => S3Result.noSuchKey, fun _ => some 150⟩ "CA"
        (FS.mk [] 0 0 0 0)).2.originCalls = 1 ∧
    (get_db_path ⟨false, 100, "/data/fia"⟩
        ⟨fun _ => S3Result.noSuchKey, fun _ => some 150⟩ "CA"
        ((get_db_path ⟨false, 100, "/data/fia"⟩
          ⟨fun _ => S3Result.noSuchKey, fun _ => some 150⟩ "CA"
          (FS.mk [] 0 0 0 0)).2)).1 =
      (get_db_path ⟨false, 100, "/data/fia"⟩
        ⟨fun _ => S3Result.noSuchKey, fun _ => some 150⟩ "CA"
        (FS.mk [] 0 0 0 0)).1 ∧
    (get_db_path ⟨false, 100, "/data/fia"⟩
        ⟨fun _ => S3Result.noSuchKey, fun _ => some 150⟩ "CA"
        ((get_db_path ⟨false, 100, "/data/fia"⟩
          ⟨fun _ => S3Result.noSuchKey, fun _ => some 150⟩ "CA"
          (FS.mk [] 0 0 0 0)).2)).2.originCalls = 2 := by decide

/-- C1 (amended): `get_db_path` consults the tiers strictly in the order
Local, S3, Origin, short-circuiting on the first hit: a local hit makes
no S3/origin/upload call; on a local miss an S3 hit populates the local
tier and returns the local path with no origin call; otherwise the
origin is fetched, stored locally, best-effort uploaded to S3 when
configured, and the local path returned.  Provided the artifact sizes
the remote tiers supply fit within the quota (otherwise the eviction
pass deletes the fresh file, see the counterexample), a subsequent
resolve of the same key is served from Local with no further S3 or
origin calls. -/
theorem tier_order_short_circuit_backfill (cfg : Config) (env : Env)
    (state : String) (fs : FS)
    (hts : ∀ f ∈ fs.files, f.atime ≤ fs.clock)
    (hs3fit : ∀ s, env.s3 (toUpperStr state) = S3Result.found s →
      s ≤ cfg.maxLocalBytes)
    (hogfit : ∀ s, env.origin (toUpperStr state) = some s →
      s ≤ cfg.maxLocalBytes) :
    (fileExists fs.files (dbName (toUpperStr state)) = true →
      get_db_path cfg env state fs =
        (some (dbPath cfg (toUpperStr state)),
          touch fs (dbName (toUpperStr state)))) ∧
    (∀ s, fileExists fs.files (dbName (toUpperStr state)) = false →
      cfg.s3Bucket = true → env.s3 (toUpperStr state) = S3Result.found s →
      (get_db_path cfg env state fs).1 = some (dbPath cfg (toUpperStr state)) ∧
      (get_db_path cfg env state fs).2.originCalls = fs.originCalls ∧
      (get_db_path cfg env state fs).2.s3Calls = fs.s3Calls + 1 ∧
      fileExists (get_db_path cfg env state fs).2.files
        (dbName (toUpperStr state)) = true) ∧
    (∀ s, fileExists fs.files (dbName (toUpperStr state)) = false →
      (cfg.s3Bucket = false ∨ env.s3 (toUpperStr state) = S3Result.noSuchKey ∨
        env.s3 (toUpperStr state) = S3Result.transportError) →
      env.origin (toUpperStr state) = some s →
      (get_db_path cfg env state fs).1 = some (dbPath cfg (toUpperStr state)) ∧
      (get_db_path cfg env state fs).2.originCalls = fs.originCalls + 1 ∧
      fileExists (get_db_path cfg env state fs).2.files
        (dbName (toUpperStr state)) = true ∧
      (get_db_path cfg env state fs).2.uploads =
        fs.uploads + (if cfg.s3Bucket then 1 else 0)) ∧
    (∀ p fs1, get_db_path cfg env state fs = (some p, fs1) →
      (get_db_path cfg env state fs1).1 = some p ∧
      (get_db_path cfg env state fs1).2.s3Calls = fs1.s3Calls ∧
      (get_db_path cfg env state fs1).2.originCalls = fs1.originCalls) := by
  refine ⟨fun hex => get_db_path_of_hit cfg env state fs hex, ?_, ?_, ?_⟩
  · intro s hex hb hs
    have hres : get_db_path cfg env state fs =
        (some (dbPath cfg (toUpperStr state)),
          enforceCacheLimit cfg.maxLocalBytes
            (writeFile
              (FS.mk fs.files fs.clock (fs.s3Calls + 1) fs.originCalls
                fs.uploads)
              (dbName (toUpperStr state)) s)) := by
      simp [get_db_path, downloadFromS3, hex, hb, hs]
    rw [hres]
    refine ⟨rfl, ?_, ?_, ?_⟩
    · rw [enforceCacheLimit_originCalls]; rfl
    · rw [enforceCacheLimit_s3Calls]; rfl
    · exact fileExists_iff_mem_names.mpr
        (List.mem_map.mpr ⟨_,
          writeFile_survives cfg.maxLocalBytes _ _ s hts (hs3fit s hs), rfl⟩)
  · intro s hex hdisj ho
    cases hb : cfg.s3Bucket with
    | false =>
      have hres : get_db_path cfg env state fs =
          (some (dbPath cfg (toUpperStr state)),
            enforceCacheLimit cfg.maxLocalBytes
              (writeFile
                (FS.mk fs.files fs.clock fs.s3Calls (fs.originCalls + 1)
                  fs.uploads)
                (dbName (toUpperStr state)) s)) := by
        simp [get_db_path, downloadFromFia, hex, hb, ho]
      rw [hres]
      refine ⟨rfl, ?_, ?_, ?_⟩
      · rw [enforceCacheLimit_originCalls]; rfl
      · exact fileExists_iff_mem_names.mpr
          (List.mem_map.mpr ⟨_,
            writeFile_survives cfg.maxLocalBytes _ _ s hts (hogfit s ho),
            rfl⟩)
      · rw [enforceCacheLimit_uploads]; simp [writeFile]
    | true =>
      have hs : env.s3 (toUpperStr state) = S3Result.noSuchKey ∨
          env.s3 (toUpperStr state) = S3Result.transportError := by
        rcases hdisj with hb0 | h1 | h2
        · rw [hb] at hb0; cases hb0
        · exact Or.inl h1
        · exact Or.inr h2
      have hres : get_db_path cfg env state fs =
          (some (dbPath cfg (toUpperStr state)),
            uploadToS3 (enforceCacheLimit cfg.maxLocalBytes
              (writeFile
                (FS.mk fs.files fs.clock (fs.s3Calls + 1)
                  (fs.originCalls + 1) fs.uploads)
                (dbName (toUpperStr state)) s))) := by
        rcases hs with hs | hs <;>
          simp [get_db_path, downloadFromS3, downloadFromFia, uploadToS3,
            hex, hb, hs, ho]
      rw [hres]
      refine ⟨rfl, ?_, ?_, ?_⟩
      · show (enforceCacheLimit _ _).originCalls = fs.originCalls + 1
        rw [enforceCacheLimit_originCalls]; rfl
      · show fileExists (enforceCacheLimit _ _).files _ = true
        exact fileExists_iff_mem_names.mpr
          (List.mem_map.mpr ⟨_,
            writeFile_survives cfg.maxLocalBytes _ _ s hts (hogfit s ho),
            rfl⟩)
      · simp [uploadToS3, writeFile, enforceCacheLimit_uploads]
  · intro p fs1 h
    obtain ⟨hp, hhit⟩ := resolve_success_hit cfg env state fs p fs1 hts
      hs3fit hogfit h
    rw [get_db_path_of_hit cfg env state fs1 hhit]
    exact ⟨by rw [hp], rfl, rfl⟩

/-- Witness for the amended C1, exercising the local-miss/S3-hit arm: the
artifact is populated locally with no origin call, and a repeated
resolve is then served locally with no further network calls. -/
theorem tier_order_short_circuit_backfill_witness :
    (get_db_path ⟨true, 100, "/data/fia"⟩
        ⟨fun _ => S3Result.found 40, fun _ => none⟩ "CA"
        (FS.mk [] 0 0 0 0)).1 = some (dbPath ⟨true, 100, "/data/fia"⟩
          (toUpperStr "CA")) ∧
    (get_db_path ⟨true, 100, "/data/fia"⟩
        ⟨fun _ => S3Result.found 40, fun _ => none⟩ "CA"
        (FS.mk [] 0 0 0 0)).2.originCalls = 0 ∧
    (get_db_path ⟨true, 100, "/data/fia"⟩
        ⟨fun _ => S3Result.found 40, fun _ => none⟩ "CA"
        (FS.mk [] 0 0 0 0)).2.s3Calls = 1 ∧
    fileExists (get_db_path ⟨true, 100, "/data/fia"⟩
        ⟨fun _ => S3Result.found 40, fun _ => none⟩ "CA"
        (FS.mk [] 0 0 0 0)).2.files (dbName (toUpperStr "CA")) = true := by
  have h := tier_order_short_circuit_backfill ⟨true, 100, "/data/fia"⟩
    ⟨fun _ => S3Result.found 40, fun _ => none⟩ "CA" (FS.mk [] 0 0 0 0)
    (by intro f hf; cases hf)
    (by intro s hs; injection hs with h'; cases h'; decide)
    (fun s hs => Option.noConfusion hs)
  exact h.2.1 40 (by decide) rfl rfl

/-- C1 counterexample: when the origin artifact (150 bytes) exceeds the
quota (100 bytes), the first resolve succeeds but its eviction pass
deletes the fresh file, so the subsequent resolve of the same key is NOT
served from Local: it performs a further origin call. -/
theorem subsequent_resolve_not_local_when_oversized :
    (get_db_path ⟨false, 100, "/data/fia"⟩
        ⟨fun _ => S3Result.noSuchKey, fun _ => some 150⟩ "NC"
        (FS.mk [] 0 0 0 0)).1 = some "/data/fia/NC.duckdb" ∧
    fileExists (get_db_path ⟨false, 100, "/data/fia"⟩
        ⟨fun _ => S3Result.noSuchKey, fun _ => some 150⟩ "NC"
        (FS.mk [] 0 0 0 0)).2.files "NC.duckdb" = false ∧
    (get_db_path ⟨false, 100, "/data/fia"⟩
        ⟨fun _ => S3Result.noSuchKey, fun _ => some 150⟩ "NC"
        ((get_db_path ⟨false, 100, "/data/fia"⟩
          ⟨fun _ => S3Result.noSuchKey, fun _ => some 150⟩ "NC"
          (FS.mk [] 0 0 0 0)).2)).2.originCalls = 2 := by decide

/-- The head of the LRU sort is the first-registered entry among those
with the minimal access time: it has a timestamp at most every other
entry's, and every entry registered before it has a strictly greater
timestamp. -/
theorem sortByAtime_head_first_min (l : List FileEntry) (hne : l ≠ []) :
    ∃ f rest l₁ l₂, sortByAtime l = f :: rest ∧ l = l₁ ++ f :: l₂ ∧
      (∀ g ∈ l, f.atime ≤ g.atime) ∧ (∀ g ∈ l₁, f.atime < g.atime) := by
  induction l with
  | nil => exact absurd rfl hne
  | cons x xs ih =>
    cases xs with
    | nil =>
      refine ⟨x, [], [], [], rfl, rfl, ?_, ?_⟩
      · intro g hg
        rcases List.mem_singleton.mp hg with rfl
        exact Nat.le_refl _
      · intro g hg; cases hg
    | cons y ys =>
      obtain ⟨m, rest, l₁, l₂, hsort, hdec, hmin, hstrict⟩ :=
        ih (by simp)
      by_cases hle : x.atime ≤ m.atime
      · refine ⟨x, m :: rest, [], y :: ys, ?_, rfl, ?_, ?_⟩
        · have hstep : sortByAtime (x :: y :: ys) =
              insertA x (sortByAtime (y :: ys)) := rfl
          rw [hstep, hsort]
          simp [insertA, hle]
        · intro g hg
          rcases List.mem_cons.mp hg with rfl | hg'
          · exact Nat.le_refl _
          · exact Nat.le_trans hle (hmin g hg')
        · intro g hg; cases hg
      · have hlt : m.atime < x.atime := Nat.lt_of_not_le hle
        refine ⟨m, insertA x rest, x :: l₁, l₂, ?_, ?_, ?_, ?_⟩
        · have hstep : sortByAtime (x :: y :: ys) =
              insertA x (sortByAtime (y :: ys)) := rfl
          rw [hstep, hsort]
          simp [insertA, hle]
        · rw [List.cons_append, hdec]
        · intro g hg
          rcases List.mem_cons.mp hg with rfl | hg'
          · exact Nat.le_of_lt hlt
          · exact hmin g hg'
        · intro g hg
          rcases List.mem_cons.mp hg with rfl | hg'
          · exact hlt
          · exact hstrict g hg'

/-- C8: while the total size exceeds the quota, the eviction pass always
selects the entry with the oldest access time first, ties broken by
registration order (oldest-registered first); and when evicting that one
entry suffices to meet the quota, it is the only entry evicted — every
other entry survives. -/
theorem lru_selects_oldest_first (maxB : Nat) (fs : FS)
    (hnd : (fs.files.map FileEntry.name).Nodup)
    (hover : maxB < sumSizes fs.files) (hne : fs.files ≠ []) :
    ∃ f l₁ l₂, fs.files = l₁ ++ f :: l₂ ∧
      (∀ g ∈ fs.files, f.atime ≤ g.atime) ∧
      (∀ g ∈ l₁, f.atime < g.atime) ∧
      (evictLoop maxB (sumSizes fs.files) (sortByAtime fs.files)).head? =
        some f.name ∧
      (sumSizes fs.files - f.size ≤ maxB →
        evictLoop maxB (sumSizes fs.files) (sortByAtime fs.files) =
          [f.name] ∧
        (enforceCacheLimit maxB fs).files = l₁ ++ l₂) := by
  obtain ⟨f, rest, l₁, l₂, hsort, hdec, hmin, hstrict⟩ :=
    sortByAtime_head_first_min fs.files hne
  have hnotle : ¬ sumSizes fs.files ≤ maxB := Nat.not_le.mpr hover
  have hsum : sumSizes fs.files = f.size + sumSizes rest := by
    rw [sumSizes_perm (sortByAtime_perm fs.files).symm, hsort, sumSizes_cons]
  have hev : evictLoop maxB (sumSizes fs.files) (sortByAtime fs.files) =
      f.name :: evictLoop maxB (sumSizes fs.files - f.size) rest := by
    rw [hsort]
    simp only [evictLoop, if_neg hnotle]
  have hnames₁ : ∀ g ∈ l₁, g.name ≠ f.name := by
    intro g hg heq
    have hmapnd := hnd
    rw [hdec] at hmapnd
    simp only [List.map_append, List.map_cons] at hmapnd
    obtain ⟨-, -, hdisj⟩ := List.nodup_append.mp hmapnd
    refine hdisj (List.mem_map_of_mem FileEntry.name hg) ?_
    rw [heq]
    exact List.mem_cons_self _ _
  have hnames₂ : ∀ g ∈ l₂, g.name ≠ f.name := by
    intro g hg heq
    have hmapnd : (fs.files.map FileEntry.name).Nodup := hnd
    rw [hdec] at hmapnd
    simp only [List.map_append, List.map_cons] at hmapnd
    have h₂ := (List.nodup_append.mp hmapnd).2.1
    have := (List.nodup_cons.mp h₂).1
    exact this (heq ▸ List.mem_map_of_mem FileEntry.name hg)
  refine ⟨f, l₁, l₂, hdec, hmin, hstrict, by rw [hev]; rfl, ?_⟩
  intro hone
  have hrest : sumSizes rest ≤ maxB := by omega
  have hev2 : evictLoop maxB (sumSizes fs.files) (sortByAtime fs.files) =
      [f.name] := by
    rw [hev]
    have : sumSizes fs.files - f.size = sumSizes rest := by omega
    rw [this, evictLoop_eq_nil rest hrest]
  refine ⟨hev2, ?_⟩
  simp only [enforceCacheLimit, if_neg hnotle]
  rw [hev2, hdec]
  rw [List.filter_append, List.filter_cons]
  have hfself : ([f.name].contains f.name) = true := by simp
  simp only [hfself, Bool.not_true, if_false]
  have hl₁ : l₁.filter (fun g => !([f.name].contains g.name)) = l₁ :=
    List.filter_eq_self.mpr (fun g hg => by
      simp [List.contains_cons, hnames₁ g hg])
  have hl₂ : l₂.filter (fun g => !([f.name].contains g.name)) = l₂ :=
    List.filter_eq_self.mpr (fun g hg => by
      simp [List.contains_cons, hnames₂ g hg])
  rw [hl₁, hl₂]
  simp

/-- Witness for C8: entries A, B, C where A has the oldest access time
(A was read before C, C before B) and a quota of 100 forcing exactly one
eviction: A alone is evicted, B and C survive. -/
theorem lru_selects_oldest_first_witness :
    ∃ f l₁ l₂,
      (FS.mk [⟨"A.duckdb", 50, 1⟩, ⟨"B.duckdb", 50, 3⟩, ⟨"C.duckdb", 50, 2⟩]
        4 0 0 0).files = l₁ ++ f :: l₂ ∧
      (∀ g ∈ (FS.mk [⟨"A.duckdb", 50, 1⟩, ⟨"B.duckdb", 50, 3⟩,
        ⟨"C.duckdb", 50, 2⟩] 4 0 0 0).files, f.atime ≤ g.atime) ∧
      (∀ g ∈ l₁, f.atime < g.atime) ∧
      (evictLoop 100
        (sumSizes (FS.mk [⟨"A.duckdb", 50, 1⟩, ⟨"B.duckdb", 50, 3⟩,
          ⟨"C.duckdb", 50, 2⟩] 4 0 0 0).files)
        (sortByAtime (FS.mk [⟨"A.duckdb", 50, 1⟩, ⟨"B.duckdb", 50, 3⟩,
          ⟨"C.duckdb", 50, 2⟩] 4 0 0 0).files)).head? = some f.name ∧
      (sumSizes (FS.mk [⟨"A.duckdb", 50, 1⟩, ⟨"B.duckdb", 50, 3⟩,
          ⟨"C.duckdb", 50, 2⟩] 4 0 0 0).files - f.size ≤ 100 →
        evictLoop 100
          (sumSizes (FS.mk [⟨"A.duckdb", 50, 1⟩, ⟨"B.duckdb", 50, 3⟩,
            ⟨"C.duckdb", 50, 2⟩] 4 0 0 0).files)
          (sortByAtime (FS.mk [⟨"A.duckdb", 50, 1⟩, ⟨"B.duckdb", 50, 3⟩,
            ⟨"C.duckdb", 50, 2⟩] 4 0 0 0).files) = [f.name] ∧
        (enforceCacheLimit 100
          (FS.mk [⟨"A.duckdb", 50, 1⟩, ⟨"B.duckdb", 50, 3⟩,
            ⟨"C.duckdb", 50, 2⟩] 4 0 0 0)).files = l₁ ++ l₂) :=
  lru_selects_oldest_first 100
    (FS.mk [⟨"A.duckdb", 50, 1⟩, ⟨"B.duckdb", 50, 3⟩, ⟨"C.duckdb", 50, 2⟩]
      4 0 0 0)
    (by decide) (by decide) (by decide)

/-! ## Concurrent callers

`get_db_path` decomposed at its suspension points (the network calls):
one atomic step per tier consultation, so that two request handlers
running the same resolution can interleave.  The code has no lock or
single-flight gate, so the shared state is just the filesystem. -/

/-- Program counter of one in-flight `get_db_path` call: about to check
the local tier, the S3 tier, the origin, or finished. -/
inductive PC where
  | tier1
  | tier2
  | tier3
  | finished
deriving DecidableEq, Repr

/-- One in-flight caller: its program counter and, once finished, its
returned value (`none` meaning the call raised). -/
structure Caller where
  pc : PC
  ret : Option String
deriving DecidableEq, Repr

/-- One atomic step of `get_db_path` for one caller against the shared
filesystem: exactly the tier-1 / tier-2 / tier-3 blocks of the code. -/
def stepResolve (cfg : Config) (env : Env) (state : String) (c : Caller)
    (fs : FS) : Caller × FS :=
  let key := toUpperStr state
  let name := dbName key
  match c.pc with
  | PC.tier1 =>
    if fileExists fs.files name then
      (⟨PC.finished, some (dbPath cfg key)⟩, touch fs name)
    else (⟨PC.tier2, none⟩, fs)
  | PC.tier2 =>
    let s3r := if cfg.s3Bucket then downloadFromS3 cfg env key fs
               else (false, fs)
    if s3r.1 then
      (⟨PC.finished, some (dbPath cfg key)⟩,
        enforceCacheLimit cfg.maxLocalBytes s3r.2)
    else (⟨PC.tier3, none⟩, s3r.2)
  | PC.tier3 =>
    let og := downloadFromFia env key fs
    if og.1 then
      let fs3 := enforceCacheLimit cfg.maxLocalBytes og.2
      let fs4 := if cfg.s3Bucket then uploadToS3 fs3 else fs3
      (⟨PC.finished, some (dbPath cfg key)⟩, fs4)
    else (⟨PC.finished, none⟩, og.2)
  | PC.finished => (c, fs)

/-- Run two interleaved callers under a schedule (`true` steps the first
caller, `false` the second). -/
def runTwo (cfg : Config) (env : Env) (state : String) :
    List Bool → Caller × Caller × FS → Caller × Caller × FS
  | [], s => s
  | b :: sch, (c₁, c₂, fs) =>
    if b then
      let r := stepResolve cfg env state c₁ fs
      runTwo cfg env state sch (r.1, c₂, r.2)
    else
      let r := stepResolve cfg env state c₂ fs
      runTwo cfg env state sch (c₁, r.1, r.2)

/-- Faithfulness of the decomposition: a single caller stepped alone to
completion computes exactly `get_db_path`. -/
theorem stepResolve_seq_eq_get_db_path (cfg : Config) (env : Env)
    (state : String) (fs : FS) :
    (let r₁ := stepResolve cfg env state ⟨PC.tier1, none⟩ fs
     let r₂ := stepResolve cfg env state r₁.1 r₁.2
     let r₃ := stepResolve cfg env state r₂.1 r₂.2
     (r₃.1.ret, r₃.2)) = get_db_path cfg env state fs := by
  cases hex : fileExists fs.files (dbName (toUpperStr state)) <;>
    cases hb : cfg.s3Bucket <;>
    cases hs : env.s3 (toUpperStr state) <;>
    cases ho : env.origin (toUpperStr state) <;>
    simp [stepResolve, get_db_path, downloadFromS3, downloadFromFia,
      uploadToS3, hex, hb, hs, ho]

/-- C9 (amended): two concurrent `resolve` calls for the same
previously-unseen key can interleave so that EACH performs its own
origin fetch — the code has no single-flight gate; both callers still
return the identical path.  Schedule: both check the local tier before
either has populated it. -/
theorem concurrent_resolves_each_fetch_origin :
    (runTwo ⟨false, 1000, "/data/fia"⟩
        ⟨fun _ => S3Result.noSuchKey, fun _ => some 50⟩ "CA"
        [true, false, true, false, true, false]
        (⟨PC.tier1, none⟩, ⟨PC.tier1, none⟩, FS.mk [] 0 0 0 0)).2.2.originCalls
      = 2 ∧
    (runTwo ⟨false, 1000, "/data/fia"⟩
        ⟨fun _ => S3Result.noSuchKey, fun _ => some 50⟩ "CA"
        [true, false, true, false, true, false]
        (⟨PC.tier1, none⟩, ⟨PC.tier1, none⟩, FS.mk [] 0 0 0 0)).1.ret =
      some "/data/fia/CA.duckdb" ∧
    (runTwo ⟨false, 1000, "/data/fia"⟩
        ⟨fun _ => S3Result.noSuchKey, fun _ => some 50⟩ "CA"
        [true, false, true, false, true, false]
        (⟨PC.tier1, none⟩, ⟨PC.tier1, none⟩, FS.mk [] 0 0 0 0)).2.1.ret =
      some "/data/fia/CA.duckdb" := by decide

/-- C9 counterexample: the same interleaving shows "exactly one origin
fetch" is false — two concurrent resolves of one unseen key make two
origin fetches. -/
theorem single_flight_violated :
    (runTwo ⟨false, 1000, "/data/fia"⟩
        ⟨fun _ => S3Result.noSuchKey, fun _ => some 50⟩ "CA"
        [true, false, true, false, true, false]
        (⟨PC.tier1, none⟩, ⟨PC.tier1, none⟩, FS.mk [] 0 0 0 0)).1.pc =
      PC.finished ∧
    (runTwo ⟨false, 1000, "/data/fia"⟩
        ⟨fun _ => S3Result.noSuchKey, fun _ => some 50⟩ "CA"
        [true, false, true, false, true, false]
        (⟨PC.tier1, none⟩, ⟨PC.tier1, none⟩, FS.mk [] 0 0 0 0)).2.1.pc =
      PC.finished ∧
    ¬ ((runTwo ⟨false, 1000, "/data/fia"⟩
        ⟨fun _ => S3Result.noSuchKey, fun _ => some 50⟩ "CA"
        [true, false, true, false, true, false]
        (⟨PC.tier1, none⟩, ⟨PC.tier1, none⟩,
          FS.mk [] 0 0 0 0)).2.2.originCalls = 1) := by decide

end FIAStorage
